import Mathlib

/-!
Shallow embedding of the ESP32 ADS-B companion display core
(track table + dirty-rectangle incremental renderer), translated from the
repository sources.  Machine `int` values are modelled as `Int`, `uint32_t`
timestamps as `Nat` together with explicit wrap-around subtraction modulo
`2 ^ 32`, and C `%` on `int` as `Int.tmod` (truncated remainder, the C99
semantics).  The transcendental slippy-map projection (`latlon_to_global_pixels`,
double precision `log`/`tan`) is treated as an opaque real-valued input to the
integer screen-coordinate logic, which is where every decision modelled here is
made; the real-valued offsets are carried as rationals.
-/

/-! ## Screen / sprite constants (from the main sketch and its config headers) -/

/-- Screen width in pixels (`SW = 480`). -/
def SW : Int := 480

/-- Screen height in pixels (`SH = 320`). -/
def SH : Int := 320

/-- Sprite (icon) width: `PW = plane32_w`.  The sprite asset is the 32x32
`plane32_360` table (see the asset names and the 32x32 erase comments in the
source; the spec's scenario section likewise uses 32x32 icon rectangles). -/
def PW : Int := 32

/-- Sprite (icon) height: `PH = plane32_h = 32`. -/
def PH : Int := 32

/-- Height of the reserved top legend strip (`LEGEND_H = 18`). -/
def LEGEND_H : Int := 18

/-- Height of the reserved bottom status strip (`BOTTOM_H = 18`). -/
def BOTTOM_H : Int := 18

/-- Horizontal offset of the bottom status text (`BOTTOM_LEFT_MARGIN = 25`). -/
def BOTTOM_LEFT_MARGIN : Int := 25

/-- Track table capacity (`MAX_TRACKS = 200`). -/
def MAX_TRACKS : Nat := 200

/-- Draw-list bound per refresh (`MAX_DRAW = 99`). -/
def MAX_DRAW : Nat := 99

/-- Track time-to-live in milliseconds (`TRACK_TTL_MS = 15000`). -/
def TRACK_TTL_MS : Nat := 15000

/-- Draw-eligibility position staleness bound: `(uint32_t)(MAX_SEEN_POS_S * 1000.0)`
with `MAX_SEEN_POS_S = 30.0`, i.e. 30000 ms. -/
def MAX_SEEN_POS_MS : Nat := 30000

/-! ## Altitude color bands (`colorFromAltitudeM`) -/

/-- `ALT_L1_M = 1000`. -/
def ALT_L1_M : Int := 1000

/-- `ALT_L2_M = 5000`. -/
def ALT_L2_M : Int := 5000

/-- `ALT_L3_M = 9000`. -/
def ALT_L3_M : Int := 9000

/-- `TFT_DARKGREY` (RGB565), the `ALT_COLOR_UNKNOWN` band color. -/
def ALT_COLOR_UNKNOWN : Nat := 0x7BEF

/-- `TFT_RED` (RGB565), the `ALT_COLOR_L1` (low) band color. -/
def ALT_COLOR_L1 : Nat := 0xF800

/-- `TFT_GREEN` (RGB565), the `ALT_COLOR_L2` band color. -/
def ALT_COLOR_L2 : Nat := 0x07E0

/-- `TFT_YELLOW` (RGB565), the `ALT_COLOR_L3` band color. -/
def ALT_COLOR_L3 : Nat := 0xFFE0

/-- `TFT_CYAN` (RGB565), the `ALT_COLOR_L4` (high) band color. -/
def ALT_COLOR_L4 : Nat := 0x07FF

/-- `TFT_WHITE` (RGB565), the default `Track::color`. -/
def TFT_WHITE : Nat := 0xFFFF

/-- Altitude-band color map, translated from `colorFromAltitudeM`:
nested `if (alt_m < 0) ... if (alt_m < ALT_L1_M) ...` cascade. -/
def colorFromAltitudeM (alt_m : Int) : Nat :=
  if alt_m < 0 then ALT_COLOR_UNKNOWN
  else if alt_m < ALT_L1_M then ALT_COLOR_L1
  else if alt_m < ALT_L2_M then ALT_COLOR_L2
  else if alt_m < ALT_L3_M then ALT_COLOR_L3
  else ALT_COLOR_L4

/-! ## Heading-to-sprite mapping (`planeMaskForHeading`, `mapHeadingToSprite`) -/

/-- C `%` on `int`: truncated remainder (result has the sign of the dividend). -/
def cMod (a b : Int) : Int := Int.tmod a b

/-- The `h %= 360; if (h < 0) h += 360;` normalization used by both
`planeMaskForHeading` and `mapHeadingToSprite`. -/
def normHeading360 (h : Int) : Int :=
  let r := cMod h 360
  if r < 0 then r + 360 else r

/-- `SPRITE_CCW = true`. -/
def SPRITE_CCW : Bool := true

/-- `SPRITE_OFFSET_DEG = 0`. -/
def SPRITE_OFFSET_DEG : Int := 0

/-- `SPRITE_FLIP_180 = false`. -/
def SPRITE_FLIP_180 : Bool := false

/-- Sprite index computation, translated from `mapHeadingToSprite`. -/
def mapHeadingToSprite (headingDeg : Int) : Int :=
  let h0 := normHeading360 headingDeg
  let h1 := if SPRITE_CCW then cMod (360 - h0) 360 else h0
  let h2 := cMod (h1 + SPRITE_OFFSET_DEG) 360
  if SPRITE_FLIP_180 then cMod (h2 + 180) 360 else h2

/-- Index into the 360-entry `plane32_offset` table, translated from the
normalization at the top of `planeMaskForHeading`. -/
def planeMaskIndex (headingDeg : Int) : Int := normHeading360 headingDeg

/-! ## Projection bounds check (`latlon_to_screen_xy`) -/

/-- C `lround`: round half away from zero, modelled on rationals. -/
def lround (q : ℚ) : Int :=
  if 0 ≤ q then ⌊q + 1 / 2⌋ else -⌊-q + 1 / 2⌋

/-- The accept test at the end of `latlon_to_screen_xy`
(`if (sx < -PW || sx > SW + PW) return false;` and the `sy` analogue). -/
def screenXYAccept (sx sy : Int) : Bool :=
  !(decide (sx < -PW) || decide (sx > SW + PW)
    || decide (sy < -PH) || decide (sy > SH + PH))

/-- Screen projection tail of `latlon_to_screen_xy`: the inputs `fx`, `fy` are
the real-valued offsets `gx - MAP_PX0`, `gy - MAP_PY0` already produced by the
(double precision, transcendental) `latlon_to_global_pixels`, carried here as
rationals.  Returns `none` exactly when the C function returns `false`. -/
def screenFromMapOffset (fx fy : ℚ) : Option (Int × Int) :=
  let sx := lround fx
  let sy := lround fy
  if screenXYAccept sx sy then some (sx, sy) else none

/-- Modelled from the spec: the spec's words for the same accept test, with the
rejection margin set to "one icon's half-extent" (half the icon width
horizontally, half the icon height vertically) instead of the code's full
icon extent.  Used only to compare the spec's wording with the code. -/
def screenXYAcceptSpecHalf (sx sy : Int) : Bool :=
  !(decide (sx < -(PW / 2)) || decide (sx > SW + PW / 2)
    || decide (sy < -(PH / 2)) || decide (sy > SH + PH / 2))

/-! ## Rectangles and the dirty-rect merge (`Rect`, `rectIntersects`,
`rectUnion`, `rectClampToScreen`, and the merge loop in `renderTracks`) -/

/-- Axis-aligned screen rectangle `{x, y, w, h}`. -/
structure Rect where
  x : Int
  y : Int
  w : Int
  h : Int
deriving DecidableEq, Repr, Inhabited

/-- Translated from `rectClampToScreen`. -/
def rectClampToScreen (r : Rect) : Rect :=
  let r1 := if r.x < 0 then { r with w := r.w + r.x, x := 0 } else r
  let r2 := if r1.y < 0 then { r1 with h := r1.h + r1.y, y := 0 } else r1
  let r3 := if r2.x + r2.w > SW then { r2 with w := SW - r2.x } else r2
  let r4 := if r3.y + r3.h > SH then { r3 with h := SH - r3.y } else r3
  let r5 := if r4.w < 0 then { r4 with w := 0 } else r4
  if r5.h < 0 then { r5 with h := 0 } else r5

/-- Translated from `rectIntersects`:
`!(a.x + a.w <= b.x || b.x + b.w <= a.x || a.y + a.h <= b.y || b.y + b.h <= a.y)`. -/
def rectIntersects (a b : Rect) : Bool :=
  !(decide (a.x + a.w ≤ b.x) || decide (b.x + b.w ≤ a.x)
    || decide (a.y + a.h ≤ b.y) || decide (b.y + b.h ≤ a.y))

/-- Translated from `rectUnion`. -/
def rectUnion (a b : Rect) : Rect :=
  let x1 := min a.x b.x
  let y1 := min a.y b.y
  let x2 := max (a.x + a.w) (b.x + b.w)
  let y2 := max (a.y + a.h) (b.y + b.h)
  { x := x1, y := y1, w := x2 - x1, h := y2 - y1 }

/-- Inner merge loop of `renderTracks` for a fixed outer index `i`: `cur` is
`dirty[i]`, `rs` is `dirty[i+1 .. nDirty-1]`, and `j` is the inner index as an
offset into `rs`.  On an intersection the code sets
`dirty[i] = rectClampToScreen(rectUnion(dirty[i], dirty[j]))`, moves the last
element into position `j`, shrinks the array, and re-examines position `j`;
otherwise it advances `j`.  The `fuel` argument makes the recursion structural;
`2 * rs.length + 1` units suffice because each step either shortens `rs`
(intersection) or increases `j` (no intersection), so the measure
`2 * rs.length - j` strictly decreases while `j < rs.length`. -/
def mergeInner : Nat → Rect → List Rect → Nat → Rect × List Rect
  | 0, cur, rs, _ => (cur, rs)
  | fuel + 1, cur, rs, j =>
    if j < rs.length then
      let x := rs.getD j default
      if rectIntersects cur x then
        mergeInner fuel (rectClampToScreen (rectUnion cur x))
          ((rs.set j (rs.getLastD default)).dropLast) j
      else
        mergeInner fuel cur rs (j + 1)
    else (cur, rs)

/-- One outer iteration applied to `dirty[i] = c` against the suffix `rs`. -/
def mergeRow (c : Rect) (rs : List Rect) : Rect × List Rect :=
  mergeInner (2 * rs.length + 1) c rs 0

/-- Outer merge loop of `renderTracks`: positions `0 .. i-1` (held reversed in
`done`) are final; the head of `todo` is `dirty[i]`.  Each outer iteration
consumes one element of `todo` and never lengthens it, so `todo.length + 1`
units of fuel suffice. -/
def mergeOuter : Nat → List Rect → List Rect → List Rect
  | 0, done, todo => done.reverse ++ todo
  | _ + 1, done, [] => done.reverse
  | fuel + 1, done, c :: rest =>
    let (c1, rest1) := mergeRow c rest
    mergeOuter fuel (c1 :: done) rest1

/-- The dirty-rectangle merge step of `renderTracks` (the nested
`for (i ...) for (j ...)` loop), as a function on the candidate list. -/
def mergeDirty (rs : List Rect) : List Rect :=
  mergeOuter (rs.length + 1) [] rs

/-! ## Track table (`Track`, `findTrackByHex`, `allocTrackSlot`,
`eraseTrackIfDrawn`, `expireOldTracks`) -/

/-- One slot of the track table, translated from `struct Track`.  The double
precision `lat`/`lon` fields are carried as rationals (they only flow into
debug printing and the status line's distance summary, never into a decision
modelled here). -/
structure Track where
  used : Bool := false
  hex : String := ""
  flight : String := ""
  lat : ℚ := 0
  lon : ℚ := 0
  cx : Int := 0
  cy : Int := 0
  oldDrawX : Int := 0
  oldDrawY : Int := 0
  headingDeg : Int := 0
  altitude_m : Int := -1
  color : Nat := TFT_WHITE
  lastUpdateMs : Nat := 0
  drawn : Bool := false
deriving DecidableEq, Repr, Inhabited

/-- `uint32_t` wrap-around subtraction `a - b` (C unsigned semantics), used for
all `millis()` age computations. -/
def u32sub (a b : Nat) : Nat :=
  (a % 2 ^ 32 + (2 ^ 32 - b % 2 ^ 32)) % 2 ^ 32

/-- The first six characters of an identity string: `strncpy(t.hex, hex, 6)`
stores, and `strncmp(t.hex, hex, 6)` compares, at most six characters. -/
def hexKey (s : String) : String := s.take 6

/-- Translated from `findTrackByHex`: index of the first used slot whose
stored hex matches the first six characters of `hex`, if any. -/
def findTrackByHex : List Track → String → Option Nat
  | [], _ => none
  | t :: ts, hex =>
    if t.used && t.hex == hexKey hex then some 0
    else (findTrackByHex ts hex).map (· + 1)

/-- First free slot (`if (!tracks[i].used) return i;` scan), if any. -/
def findFreeSlot : List Track → Option Nat
  | [] => none
  | t :: ts =>
    if !t.used then some 0
    else (findFreeSlot ts).map (· + 1)

/-- Oldest-`lastUpdateMs` scan of `allocTrackSlot`: `i` is the index of the
head of the remaining list, `(oldest, idx)` the accumulator initialised to
`(0xFFFFFFFF, 0)`. -/
def oldestScan : List Track → Nat → Nat → Nat → Nat × Nat
  | [], _, oldest, idx => (oldest, idx)
  | t :: ts, i, oldest, idx =>
    if t.lastUpdateMs < oldest then oldestScan ts (i + 1) t.lastUpdateMs i
    else oldestScan ts (i + 1) oldest idx

/-- Translated from `allocTrackSlot`: first free slot, otherwise the slot with
the oldest `lastUpdateMs` (initial candidate `0xFFFFFFFF`, index `0`). -/
def allocTrackSlot (ts : List Track) : Nat :=
  match findFreeSlot ts with
  | some i => i
  | none => (oldestScan ts 0 (2 ^ 32 - 1) 0).2

/-- The rectangle last drawn for a track (`trackRectOld`). -/
def trackRectOld (t : Track) : Rect :=
  { x := t.oldDrawX, y := t.oldDrawY, w := PW, h := PH }

/-- The rectangle a track would occupy this frame (`trackRectCurrent`). -/
def trackRectCurrent (t : Track) : Rect :=
  { x := t.cx - PW / 2, y := t.cy - PH / 2, w := PW, h := PH }

/-- Translated from `eraseTrackIfDrawn`: if drawn, restore the background
under the old rectangle (the restored rectangle is returned as an event) and
clear the drawn flag. -/
def eraseTrackIfDrawn (t : Track) : Track × List Rect :=
  if t.drawn then ({ t with drawn := false }, [trackRectOld t])
  else (t, [])

/-- Translated from `expireOldTracks`: frees every used slot whose
`now - lastUpdateMs` (uint32 wrap-around) exceeds `TRACK_TTL_MS`, erasing its
sprite first if it was drawn.  Returns the updated table together with the
list of restored (erased) rectangles, in scan order. -/
def expireOldTracks : List Track → Nat → List Track × List Rect
  | [], _ => ([], [])
  | t :: ts, now =>
    let r := expireOldTracks ts now
    if t.used && decide (u32sub now t.lastUpdateMs > TRACK_TTL_MS) then
      let e := eraseTrackIfDrawn t
      ({ e.1 with used := false } :: r.1, e.2 ++ r.2)
    else (t :: r.1, r.2)

/-! ## Feed upsert (`fetchAndUpdateTracks`, per-observation tail) -/

/-- One observation handed to the store by the feed layer, after its staleness
and range filters and the successful screen projection: the values the
per-aircraft tail of `fetchAndUpdateTracks` writes into the slot.  `trk` is the
already-rounded `lround(a["track"])` value; `alt_baro_ft` is `a["alt_baro"]`
when it is an integer. -/
structure Obs where
  hex : String
  flight : String
  lat : ℚ := 0
  lon : ℚ := 0
  sx : Int := 0
  sy : Int := 0
  trk : Int := 0
  alt_baro_ft : Option Int := none
deriving DecidableEq, Repr, Inhabited

/-- Barometric altitude conversion `lround(alt_ft * 0.3048)`. -/
def altFtToM (ft : Int) : Int := lround ((ft : ℚ) * 3048 / 10000)

/-- The altitude written into the slot: converted feet when `alt_baro` is an
integer, else the `-1` unknown sentinel. -/
def obsAltM (o : Obs) : Int :=
  match o.alt_baro_ft with
  | some ft => altFtToM ft
  | none => -1

/-- The slot update performed by the tail of the per-aircraft loop in
`fetchAndUpdateTracks` (field writes on `Track &t = tracks[idx]`, including
the erase of a recycled slot that still held a different drawn identity). -/
def updateSlot (t : Track) (o : Obs) (now : Nat) : Track :=
  let t1 := if t.used && !(t.hex == hexKey o.hex) then (eraseTrackIfDrawn t).1 else t
  { t1 with
    used := true
    hex := hexKey o.hex
    flight := o.flight.take 8
    lat := o.lat
    lon := o.lon
    cx := o.sx
    cy := o.sy
    headingDeg := normHeading360 o.trk
    altitude_m := obsAltM o
    color := colorFromAltitudeM (obsAltM o)
    lastUpdateMs := now }

/-- One upsert: `idx = findTrackByHex(hex); if (idx < 0) idx = allocTrackSlot();`
followed by the slot update.  Total: it always produces a table. -/
def upsertTrack (ts : List Track) (o : Obs) (now : Nat) : List Track :=
  let idx :=
    match findTrackByHex ts o.hex with
    | some i => i
    | none => allocTrackSlot ts
  ts.set idx (updateSlot (ts.getD idx default) o now)

/-- A whole fetch cycle's worth of upserts, applied in feed order; `now i` is
the `millis()` value at the i-th upsert. -/
def upsertAll (ts : List Track) : List (Obs × Nat) → List Track
  | [] => ts
  | (o, now) :: rest => upsertAll (upsertTrack ts o now) rest

/-- The all-free initial table (`static Track tracks[MAX_TRACKS]` with the
default member initialisers). -/
def initialTracks (n : Nat) : List Track := List.replicate n {}

/-! ## Draw list (`buildDrawList`) -/

/-- The altitude key used by the sort in `buildDrawList`: any negative
(unknown) altitude is replaced by the extreme-low sentinel `-1000000`. -/
def altKey (t : Track) : Int :=
  if t.altitude_m < 0 then -1000000 else t.altitude_m

/-- The per-track eligibility filter of `buildDrawList` step 1: used, fresh
position, sprite box clear of the legend and bottom strips, and on (or one
sprite off) the screen. -/
def drawEligible (t : Track) (now : Nat) : Bool :=
  t.used &&
  !(decide (u32sub now t.lastUpdateMs > MAX_SEEN_POS_MS)) &&
  (let x0 := t.cx - PW / 2
   let y0 := t.cy - PH / 2
   !(decide (y0 < LEGEND_H)) &&
   !(decide (y0 + PH > SH - BOTTOM_H)) &&
   !(decide (x0 < -PW) || decide (x0 > SW)) &&
   !(decide (y0 < -PH) || decide (y0 > SH)))

/-- Inner loop of `buildDrawList` step 2 for a fixed outer index: `cur` is
`outIdx[i]`, and the scan swaps `cur` with any later entry whose altitude key
is smaller, leaving the displaced entries in place.  Returns the final
`outIdx[i]` together with the updated tail. -/
def selInner (cur : Track) : List Track → Track × List Track
  | [] => (cur, [])
  | x :: xs =>
    if altKey cur > altKey x then
      let p := selInner x xs
      (p.1, cur :: p.2)
    else
      let p := selInner cur xs
      (p.1, x :: p.2)

/-- `selInner` keeps the length of the tail. -/
theorem selInner_length (cur : Track) (xs : List Track) :
    (selInner cur xs).2.length = xs.length := by
  induction xs generalizing cur with
  | nil => rfl
  | cons x xs ih =>
    simp only [selInner]
    split
    · simp [ih x]
    · simp [ih cur]

/-- The double swap loop of `buildDrawList` step 2 (an exchange selection
sort on the altitude key), as a function on the collected list. -/
def selSort : List Track → List Track
  | [] => []
  | x :: xs =>
    let p := selInner x xs
    p.1 :: selSort p.2
termination_by l => l.length
decreasing_by simp [selInner_length]

/-- Translated from `buildDrawList`: collect the first `maxOut` eligible
tracks in table order (the loop bound `count < maxOut`), then sort them by
the altitude key.  The returned list holds the selected tracks themselves
(the code returns their table indices). -/
def buildDrawList (ts : List Track) (now : Nat) (maxOut : Nat) : List Track :=
  selSort ((ts.filter (fun t => drawEligible t now)).take maxOut)

/-! ## Status line (`drawBottomBarTextDiff`) -/

/-- Default-font cell width used by the differential repaint (`charW = 6`). -/
def charW : Nat := 6

/-- The character a C string yields at position `i`: the stored character
inside the string, the terminating NUL beyond its end. -/
def charAt (s : List Char) (i : Nat) : Char := s.getD i (Char.ofNat 0)

/-- One repaint action of the differential status line: at cell `i`, the old
glyph (erased by drawing it in black, when non-NUL) and the new glyph (drawn
in white, when non-NUL). -/
structure CellPaint where
  i : Nat
  oldc : Char
  newc : Char
deriving DecidableEq, Repr

/-- Screen x of cell `i`: `xText + i * charW` with `xText = BOTTOM_LEFT_MARGIN`. -/
def cellX (i : Nat) : Nat := BOTTOM_LEFT_MARGIN.toNat + i * charW

/-- The repaint set computed by the diff loop of `drawBottomBarTextDiff`
(the non-first-call path): positions `0 ≤ i < max(len(prev), len(cur))`,
skipping cells where old and new characters agree. -/
def diffCells (prev cur : List Char) : List CellPaint :=
  (List.range (max prev.length cur.length)).filterMap fun i =>
    let oldc := charAt prev i
    let newc := charAt cur i
    if oldc = newc then none
    else some { i := i, oldc := oldc, newc := newc }

/-- Translated from `drawBottomBarTextDiff` (subsequent-call path): the
incoming text is first truncated to the 95-character buffer, then diffed
against the previously rendered string; returns the repaint actions and the
new previous string. -/
def drawBottomBarTextDiff (prev : List Char) (text : List Char) :
    List CellPaint × List Char :=
  let cur := text.take 95
  (diffCells prev cur, cur)

/-! ## Arithmetic helpers for the C `%` semantics -/

/-- Truncated remainder is odd in the dividend. -/
theorem cMod_neg_dividend (a b : Int) : cMod (-a) b = -(cMod a b) := by
  unfold cMod
  rw [Int.tmod_def, Int.tmod_def, Int.neg_tdiv]
  ring

/-- Upper bound of the C remainder by 360. -/
theorem cMod360_lt (a : Int) : cMod a 360 < 360 :=
  Int.tmod_lt_of_pos a (by norm_num)

/-- Lower bound of the C remainder by 360. -/
theorem cMod360_gt (a : Int) : -360 < cMod a 360 := by
  rcases le_or_lt 0 a with h | h
  · have h1 : (0 : Int) ≤ cMod a 360 := Int.tmod_nonneg 360 h
    omega
  · have h0 : cMod a 360 = -(cMod (-a) 360) := by
      rw [← cMod_neg_dividend]
      norm_num
    have h1 : (0 : Int) ≤ cMod (-a) 360 := Int.tmod_nonneg 360 (by omega)
    have h2 : cMod (-a) 360 < 360 := cMod360_lt (-a)
    omega

/-- C remainder of a nonnegative dividend by 360 lies in `[0, 360)`. -/
theorem cMod360_nonneg_bounds (a : Int) (ha : 0 ≤ a) :
    0 ≤ cMod a 360 ∧ cMod a 360 < 360 :=
  ⟨Int.tmod_nonneg 360 ha, cMod360_lt a⟩

/-- The shared heading normalization lands in `[0, 360)`. -/
theorem normHeading360_bounds (h : Int) :
    0 ≤ normHeading360 h ∧ normHeading360 h < 360 := by
  have h1 := cMod360_lt h
  have h2 := cMod360_gt h
  simp only [normHeading360]
  split <;> omega

/-- C10: for every integer heading, of any sign and magnitude, the
heading-to-sprite mapping (modulo-360 normalization, direction reversal, base
offset, optional 180-degree flip) and the mask-table normalization both yield
an index in `[0, 360)`, so the lookup into the 360-entry `plane32_offset`
table is always in bounds. -/
theorem claim_C10_sprite_index_in_bounds (headingDeg : Int) :
    (0 ≤ mapHeadingToSprite headingDeg ∧ mapHeadingToSprite headingDeg < 360) ∧
    (0 ≤ planeMaskIndex headingDeg ∧ planeMaskIndex headingDeg < 360) := by
  have hb := normHeading360_bounds headingDeg
  constructor
  · simp only [mapHeadingToSprite, SPRITE_CCW, SPRITE_OFFSET_DEG, SPRITE_FLIP_180,
      if_true, Bool.false_eq_true, if_false, add_zero]
    have h1 := cMod360_nonneg_bounds (360 - normHeading360 headingDeg) (by omega)
    have h2 := cMod360_nonneg_bounds (cMod (360 - normHeading360 headingDeg) 360)
      (by omega)
    exact h2
  · exact hb

/-- C4 counterexample: the altitude `-2` m is a known signed value distinct
from the `-1` unknown sentinel, yet the code maps it to the unknown-band
color A (dark grey), not to the below-1000 color B, because the first guard
of `colorFromAltitudeM` is `alt_m < 0`. -/
theorem claim_C4_counterexample :
    colorFromAltitudeM (-2) = ALT_COLOR_UNKNOWN ∧
    ALT_COLOR_UNKNOWN ≠ ALT_COLOR_L1 ∧ (-2 : Int) ≠ -1 := by
  refine ⟨rfl, by decide, by decide⟩

/-- C4 (amended): the altitude-to-color map is the step function in which
every negative altitude — the `-1` unknown sentinel and every known
below-sea-level value alike — maps to color A, `[0, 1000)` to color B,
`[1000, 5000)` to color C, `[5000, 9000)` to color D, and `≥ 9000` to
color E. -/
theorem claim_C4_amended_bands (alt : Int) :
    (alt < 0 → colorFromAltitudeM alt = ALT_COLOR_UNKNOWN) ∧
    (0 ≤ alt → alt < 1000 → colorFromAltitudeM alt = ALT_COLOR_L1) ∧
    (1000 ≤ alt → alt < 5000 → colorFromAltitudeM alt = ALT_COLOR_L2) ∧
    (5000 ≤ alt → alt < 9000 → colorFromAltitudeM alt = ALT_COLOR_L3) ∧
    (9000 ≤ alt → colorFromAltitudeM alt = ALT_COLOR_L4) := by
  refine ⟨fun h => ?_, fun h1 h2 => ?_, fun h1 h2 => ?_, fun h1 h2 => ?_,
    fun h => ?_⟩ <;>
  · unfold colorFromAltitudeM ALT_L1_M ALT_L2_M ALT_L3_M
    split_ifs <;> first | rfl | omega

/-- C4 witness: the amended band map evaluated at one concrete altitude per
band. -/
theorem claim_C4_witness :
    colorFromAltitudeM (-1) = ALT_COLOR_UNKNOWN ∧
    colorFromAltitudeM 500 = ALT_COLOR_L1 ∧
    colorFromAltitudeM 2500 = ALT_COLOR_L2 ∧
    colorFromAltitudeM 7000 = ALT_COLOR_L3 ∧
    colorFromAltitudeM 11000 = ALT_COLOR_L4 :=
  ⟨(claim_C4_amended_bands (-1)).1 (by decide),
   (claim_C4_amended_bands 500).2.1 (by decide) (by decide),
   (claim_C4_amended_bands 2500).2.2.1 (by decide) (by decide),
   (claim_C4_amended_bands 7000).2.2.2.1 (by decide) (by decide),
   (claim_C4_amended_bands 11000).2.2.2.2 (by decide)⟩

/-- C3 counterexample: the rounded projected point `(-20, 100)` lies 20 px
left of the canvas — further than the icon's half-extent `PW / 2 = 16` — so
the claim requires an out-of-bounds report, yet `latlon_to_screen_xy` accepts
it (its margin is the full icon extent `PW = 32`). -/
theorem claim_C3_counterexample :
    screenFromMapOffset (-20) 100 = some (-20, 100) ∧
    screenXYAcceptSpecHalf (-20) 100 = false := by
  constructor
  · norm_num [screenFromMapOffset, lround, screenXYAccept, PW, PH, SW, SH]
  · decide

/-- C3 (amended): the projection reports out-of-bounds exactly when the
rounded projected device-pixel point lies further than one full icon extent
(the icon width horizontally, the icon height vertically) outside the visible
canvas on some side; otherwise it returns the rounded screen coordinates. -/
theorem claim_C3_amended_full_extent_margin (fx fy : ℚ) :
    screenFromMapOffset fx fy = none ↔
      (lround fx < -PW ∨ lround fx > SW + PW ∨
       lround fy < -PH ∨ lround fy > SH + PH) := by
  simp only [screenFromMapOffset]
  split
  case isTrue h =>
    simp [screenXYAccept] at h
    simp only [reduceCtorEq, false_iff]
    omega
  case isFalse h =>
    simp [screenXYAccept] at h
    simp only [true_iff]
    omega

/-- C1: the dirty-rect merge loop does not iterate back over already-passed
pairs after it grows a rectangle, so a grown rectangle can be left
intersecting an earlier-passed one.  On the three candidate 32x32 rectangles
`(0,100,32,32)`, `(36,100,32,32)`, `(20,120,32,32)` (all inside the drawable
band), the first and third merge into `(0,100,52,52)` after the pair with the
second was already examined, and the final merged set still contains the
intersecting pair `(0,100,52,52)`, `(36,100,32,32)` — contradicting the
claimed post-merge pairwise non-intersection. -/
theorem claim_C1_merge_leaves_intersecting_pair :
    mergeDirty [⟨0, 100, 32, 32⟩, ⟨36, 100, 32, 32⟩, ⟨20, 120, 32, 32⟩]
      = [⟨0, 100, 52, 52⟩, ⟨36, 100, 32, 32⟩] ∧
    rectIntersects ⟨0, 100, 52, 52⟩ ⟨36, 100, 32, 32⟩ = true := by
  exact ⟨by decide, by decide⟩

/-- C2 counterexample: the 32x32 rectangles at `(0,100)` and `(32,100)` touch
along the edge `x = 32` (`a.x + a.w == b.x`) with identical y-ranges, yet
`rectIntersects` reports no intersection (its tests are non-strict, `<=`),
and the merge step leaves the pair unmerged instead of replacing it with its
bounding union. -/
theorem claim_C2_counterexample :
    rectIntersects ⟨0, 100, 32, 32⟩ ⟨32, 100, 32, 32⟩ = false ∧
    mergeDirty [⟨0, 100, 32, 32⟩, ⟨32, 100, 32, 32⟩]
      = [⟨0, 100, 32, 32⟩, ⟨32, 100, 32, 32⟩] := by
  exact ⟨by decide, by decide⟩

/-- C2 (amended): a pair of candidate rectangles that overlap only along a
touching edge (`a.x + a.w = b.x`) is treated as non-intersecting — the
intersection tests are non-strict — and the merge step leaves such a pair
unmerged rather than replacing it with its bounding union. -/
theorem claim_C2_amended_touching_not_merged (a b : Rect)
    (h : a.x + a.w = b.x) :
    rectIntersects a b = false ∧ rectIntersects b a = false ∧
    mergeDirty [a, b] = [a, b] := by
  have hab : rectIntersects a b = false := by
    simp [rectIntersects]
    omega
  have hba : rectIntersects b a = false := by
    simp [rectIntersects]
    omega
  refine ⟨hab, hba, ?_⟩
  simp [mergeDirty, mergeOuter, mergeRow, mergeInner, hab]

/-- C2 witness: the amended statement applied to the touching 32x32 pair at
`(100, 50)` and `(132, 50)`. -/
theorem claim_C2_witness :
    rectIntersects ⟨100, 50, 32, 32⟩ ⟨132, 50, 32, 32⟩ = false ∧
    rectIntersects ⟨132, 50, 32, 32⟩ ⟨100, 50, 32, 32⟩ = false ∧
    mergeDirty [⟨100, 50, 32, 32⟩, ⟨132, 50, 32, 32⟩]
      = [⟨100, 50, 32, 32⟩, ⟨132, 50, 32, 32⟩] :=
  claim_C2_amended_touching_not_merged ⟨100, 50, 32, 32⟩ ⟨132, 50, 32, 32⟩
    (by decide)

/-! ## Draw-list ordering (C5) -/

/-- After one inner scan, the selected entry has the least altitude key among
itself and every entry left in the tail. -/
theorem selInner_min (xs : List Track) (cur : Track) :
    altKey (selInner cur xs).1 ≤ altKey cur ∧
    ∀ y ∈ (selInner cur xs).2, altKey (selInner cur xs).1 ≤ altKey y := by
  induction xs generalizing cur with
  | nil => simp [selInner]
  | cons x xs ih =>
    simp only [selInner]
    split
    case isTrue h =>
      have hx := ih x
      constructor
      · dsimp only
        omega
      · intro y hy
        dsimp only at hy ⊢
        simp at hy
        rcases hy with rfl | hy
        · omega
        · exact hx.2 y hy
    case isFalse h =>
      have hc := ih cur
      constructor
      · dsimp only
        omega
      · intro y hy
        dsimp only at hy ⊢
        simp at hy
        rcases hy with rfl | hy
        · omega
        · exact hc.2 y hy

/-- The inner scan permutes `cur` and the tail. -/
theorem selInner_perm (xs : List Track) (cur : Track) :
    ((selInner cur xs).1 :: (selInner cur xs).2).Perm (cur :: xs) := by
  induction xs generalizing cur with
  | nil => simp [selInner]
  | cons x xs ih =>
    simp only [selInner]
    split
    case isTrue h =>
      have h1 := ih x
      have h2 : ((selInner x xs).1 :: cur :: (selInner x xs).2).Perm
          (cur :: (selInner x xs).1 :: (selInner x xs).2) := List.Perm.swap _ _ _
      exact h2.trans (h1.cons cur)
    case isFalse h =>
      have h1 := ih cur
      have h2 : ((selInner cur xs).1 :: x :: (selInner cur xs).2).Perm
          (x :: (selInner cur xs).1 :: (selInner cur xs).2) := List.Perm.swap _ _ _
      exact h2.trans ((h1.cons x).trans (List.Perm.swap _ _ _))

/-- The exchange sort permutes its input. -/
theorem selSort_perm (l : List Track) : (selSort l).Perm l := by
  induction l using selSort.induct with
  | case1 => simp [selSort]
  | case2 x xs p ih =>
    rw [selSort]
    exact (ih.cons _).trans (selInner_perm xs x)

/-- The exchange sort of `buildDrawList` sorts by the altitude key. -/
theorem selSort_sorted (l : List Track) :
    List.Pairwise (fun a b => altKey a ≤ altKey b) (selSort l) := by
  induction l using selSort.induct with
  | case1 => simp [selSort]
  | case2 x xs p ih =>
    rw [selSort]
    refine List.Pairwise.cons ?_ ih
    intro b hb
    have hbmem : b ∈ (selInner x xs).2 := ((selSort_perm _).mem_iff).mp hb
    exact (selInner_min xs x).2 b hbmem

/-- C5: every draw list built by `buildDrawList` is ordered ascending in the
altitude key: pairwise, every earlier entry has key at most the later one's,
no known-altitude entry precedes an unknown-altitude one, and two
known-altitude entries appear in ascending altitude order.  In particular,
for selected tracks with altitudes 5000 m, unknown and 1000 m, the built
list orders the altitudes as unknown, 1000 m, 5000 m. -/
theorem claim_C5_draw_order_altitude_monotone (ts : List Track)
    (now maxOut : Nat) :
    List.Pairwise
      (fun a b => altKey a ≤ altKey b ∧ (b.altitude_m < 0 → a.altitude_m < 0) ∧
        (0 ≤ a.altitude_m → 0 ≤ b.altitude_m ∧ a.altitude_m ≤ b.altitude_m))
      (buildDrawList ts now maxOut) ∧
    (buildDrawList
        [{ used := true, cx := 100, cy := 100, altitude_m := 5000 },
         { used := true, cx := 100, cy := 100, altitude_m := -1 },
         { used := true, cx := 100, cy := 100, altitude_m := 1000 }] 0 99).map
      (fun t => t.altitude_m) = [-1, 1000, 5000] := by
  constructor
  · refine (selSort_sorted _).imp ?_
    intro a b h
    refine ⟨h, ?_, ?_⟩ <;>
    · simp only [altKey] at h
      split_ifs at h <;> omega
  · norm_num [buildDrawList, drawEligible, u32sub, MAX_SEEN_POS_MS, PW, PH, SW,
      SH, LEGEND_H, BOTTOM_H, selSort, selInner, altKey]

/-! ## Expiry (C7) -/

/-- Expiry preserves the table length (slots are freed in place, never
removed). -/
theorem expireOldTracks_length (ts : List Track) (now : Nat) :
    (expireOldTracks ts now).1.length = ts.length := by
  induction ts with
  | nil => simp [expireOldTracks]
  | cons t ts ih =>
    simp only [expireOldTracks]
    split <;> simp [ih]

/-- C7: after `expireOldTracks` runs, every slot that was live with
`now - lastUpdate > TTL` (uint32 wrap-around age) is freed, and if it was
drawn its previously drawn rectangle is among the rectangles restored
(erased) in that cycle; every live slot within the TTL is left unchanged. -/
theorem claim_C7_expire_frees_and_erases (ts : List Track) (now : Nat)
    (i : Nat) (hi : i < ts.length) :
    ((ts.getD i default).used = true →
        u32sub now (ts.getD i default).lastUpdateMs > TRACK_TTL_MS →
        ((expireOldTracks ts now).1.getD i default).used = false ∧
        ((ts.getD i default).drawn = true →
          trackRectOld (ts.getD i default) ∈ (expireOldTracks ts now).2)) ∧
    ((ts.getD i default).used = true →
        u32sub now (ts.getD i default).lastUpdateMs ≤ TRACK_TTL_MS →
        (expireOldTracks ts now).1.getD i default = ts.getD i default) := by
  induction ts generalizing i with
  | nil => simp at hi
  | cons t ts ih =>
    simp only [expireOldTracks]
    by_cases hb : (t.used && decide (u32sub now t.lastUpdateMs > TRACK_TTL_MS))
      = true
    · rw [if_pos hb]
      simp only [Bool.and_eq_true, decide_eq_true_eq] at hb
      rcases i with _ | i
      · simp only [List.getD_cons_zero]
        refine ⟨fun hu hexp => ⟨by simp, fun hdrawn => ?_⟩, fun hu hfresh => ?_⟩
        · simp [eraseTrackIfDrawn, hdrawn]
        · omega
      · simp only [List.getD_cons_succ]
        have hi2 : i < ts.length := by simpa using hi
        refine ⟨fun hu hexp => ⟨((ih i hi2).1 hu hexp).1, fun hdrawn => ?_⟩,
          fun hu hfresh => (ih i hi2).2 hu hfresh⟩
        exact List.mem_append_right _ (((ih i hi2).1 hu hexp).2 hdrawn)
    · rw [if_neg hb]
      simp only [Bool.and_eq_true, decide_eq_true_eq, not_and, Nat.not_lt] at hb
      rcases i with _ | i
      · simp only [List.getD_cons_zero]
        refine ⟨fun hu hexp => absurd (hb hu) (by omega), fun hu hfresh => by simp⟩
      · simp only [List.getD_cons_succ]
        have hi2 : i < ts.length := by simpa using hi
        exact ⟨fun hu hexp => ⟨((ih i hi2).1 hu hexp).1,
          fun hdrawn => ((ih i hi2).1 hu hexp).2 hdrawn⟩,
          fun hu hfresh => (ih i hi2).2 hu hfresh⟩

/-- C7 witness: a two-slot table in which slot 0 (drawn, silent for 20 s) is
freed with its old rectangle erased, while slot 1 (updated 10 s ago) is left
unchanged. -/
theorem claim_C7_witness :
    ((expireOldTracks
        [{ used := true, drawn := true, oldDrawX := 10, oldDrawY := 40 },
         { used := true, lastUpdateMs := 10000 }] 20000).1.getD 0
        default).used = false ∧
    trackRectOld { used := true, drawn := true, oldDrawX := 10, oldDrawY := 40 }
      ∈ (expireOldTracks
          [{ used := true, drawn := true, oldDrawX := 10, oldDrawY := 40 },
           { used := true, lastUpdateMs := 10000 }] 20000).2 ∧
    (expireOldTracks
        [{ used := true, drawn := true, oldDrawX := 10, oldDrawY := 40 },
         { used := true, lastUpdateMs := 10000 }] 20000).1.getD 1 default
      = { used := true, lastUpdateMs := 10000 } := by
  have h0 := claim_C7_expire_frees_and_erases
    [{ used := true, drawn := true, oldDrawX := 10, oldDrawY := 40 },
     { used := true, lastUpdateMs := 10000 }] 20000 0 (by decide)
  have h1 := claim_C7_expire_frees_and_erases
    [{ used := true, drawn := true, oldDrawX := 10, oldDrawY := 40 },
     { used := true, lastUpdateMs := 10000 }] 20000 1 (by decide)
  exact ⟨(h0.1 (by decide) (by decide)).1,
    (h0.1 (by decide) (by decide)).2 (by decide),
    h1.2 (by decide) (by decide)⟩

/-! ## Status line (C9) -/

/-- C9: after the first render, a repaint action is emitted for a cell if and
only if the previous rendered string and the new (buffer-truncated) string
disagree at that cell — positions are compared out to the longer string's
length with the shorter one padded by NUL (absent) characters — and each
action erases exactly the old glyph and draws exactly the new glyph of its
cell.  For previous text "Tot 5 Pos 3" and new text "Tot 6 Pos 3" the single
repainted cell is cell 4, erasing '5' and drawing '6'. -/
theorem claim_C9_differential_status_line (prev text : List Char)
    (c : CellPaint) :
    (c ∈ (drawBottomBarTextDiff prev text).1 ↔
      (charAt prev c.i ≠ charAt (text.take 95) c.i ∧
       c.oldc = charAt prev c.i ∧ c.newc = charAt (text.take 95) c.i)) ∧
    (drawBottomBarTextDiff "Tot 5 Pos 3".toList "Tot 6 Pos 3".toList).1
      = [{ i := 4, oldc := '5', newc := '6' }] := by
  constructor
  · rcases c with ⟨ci, co, cn⟩
    simp only [drawBottomBarTextDiff, diffCells, List.mem_filterMap,
      List.mem_range]
    constructor
    · rintro ⟨a, ha, hf⟩
      by_cases he : charAt prev a = charAt (text.take 95) a
      · simp [he] at hf
      · simp [he] at hf
        obtain ⟨h1, h2, h3⟩ := hf
        subst h1
        subst h2
        subst h3
        exact ⟨he, rfl, rfl⟩
    · rintro ⟨hne, ho, hn⟩
      subst ho
      subst hn
      refine ⟨ci, ?_, ?_⟩
      · by_contra hge
        push_neg at hge
        have h1 : prev.length ≤ ci := le_trans (le_max_left _ _) hge
        have h2 : (text.take 95).length ≤ ci := le_trans (le_max_right _ _) hge
        exact hne (by rw [charAt, charAt, List.getD_eq_default _ _ h1,
          List.getD_eq_default _ _ h2])
      · rw [if_neg hne]
  · decide

/-! ## Track store lemmas (C6, C8) -/

/-- A successful identity lookup returns an in-range, used slot whose stored
hex matches the searched key. -/
theorem findTrackByHex_some (ts : List Track) (hex : String) (i : Nat)
    (h : findTrackByHex ts hex = some i) :
    i < ts.length ∧ (ts.getD i default).used = true ∧
    (ts.getD i default).hex = hexKey hex := by
  induction ts generalizing i with
  | nil => simp [findTrackByHex] at h
  | cons t ts ih =>
    simp only [findTrackByHex] at h
    split at h
    case isTrue hc =>
      obtain rfl : (0 : Nat) = i := Option.some.inj h
      simp only [Bool.and_eq_true, beq_iff_eq] at hc
      simp [hc.1, hc.2]
    case isFalse hc =>
      rw [Option.map_eq_some'] at h
      obtain ⟨i0, hi0, rfl⟩ := h
      have := ih i0 hi0
      simp only [List.getD_cons_succ, List.length_cons]
      exact ⟨by omega, this.2.1, this.2.2⟩

/-- A failed identity lookup means no used slot stores the searched key. -/
theorem findTrackByHex_none (ts : List Track) (hex : String)
    (h : findTrackByHex ts hex = none) :
    ∀ j, j < ts.length → (ts.getD j default).used = true →
      (ts.getD j default).hex ≠ hexKey hex := by
  induction ts with
  | nil => intro j hj; simp at hj
  | cons t ts ih =>
    simp only [findTrackByHex] at h
    split at h
    case isTrue hc => simp at h
    case isFalse hc =>
      rw [Option.map_eq_none'] at h
      intro j hj hu
      rcases j with _ | j
      · simp only [List.getD_cons_zero] at hu ⊢
        intro heq
        exact hc (by simp [hu, heq])
      · simp only [List.getD_cons_succ]
        exact ih h j (by simpa using hj) (by simpa using hu)

/-- A found free slot is in range and unused. -/
theorem findFreeSlot_some (ts : List Track) (i : Nat)
    (h : findFreeSlot ts = some i) :
    i < ts.length ∧ (ts.getD i default).used = false := by
  induction ts generalizing i with
  | nil => simp [findFreeSlot] at h
  | cons t ts ih =>
    simp only [findFreeSlot] at h
    split at h
    case isTrue hc =>
      obtain rfl : (0 : Nat) = i := Option.some.inj h
      simp only [Bool.not_eq_true'] at hc
      simp [hc]
    case isFalse hc =>
      rw [Option.map_eq_some'] at h
      obtain ⟨i0, hi0, rfl⟩ := h
      have := ih i0 hi0
      simp only [List.getD_cons_succ, List.length_cons]
      exact ⟨by omega, this.2⟩

/-- In a full table, no free slot is found. -/
theorem findFreeSlot_none_of_all_used (ts : List Track)
    (hfull : ∀ t ∈ ts, t.used = true) : findFreeSlot ts = none := by
  induction ts with
  | nil => rfl
  | cons t ts ih =>
    simp only [findFreeSlot]
    rw [if_neg (by simp [hfull t (by simp)]),
      ih (fun t' ht' => hfull t' (by simp [ht']))]
    rfl

/-- Loop invariant of the oldest-slot scan: its running minimum never grows,
bounds every scanned timestamp, and its index either is the initial
candidate or points at a scanned slot holding the running minimum. -/
theorem oldestScan_spec (ts : List Track) (i o k : Nat) :
    (oldestScan ts i o k).1 ≤ o ∧
    (∀ t ∈ ts, (oldestScan ts i o k).1 ≤ t.lastUpdateMs) ∧
    (((oldestScan ts i o k).1 = o ∧ (oldestScan ts i o k).2 = k) ∨
     (∃ j, j < ts.length ∧ (oldestScan ts i o k).2 = i + j ∧
       (oldestScan ts i o k).1 = (ts.getD j default).lastUpdateMs)) := by
  induction ts generalizing i o k with
  | nil => exact ⟨le_refl o, by simp, Or.inl ⟨rfl, rfl⟩⟩
  | cons t ts ih =>
    simp only [oldestScan]
    split
    case isTrue hc =>
      have hr := ih (i + 1) t.lastUpdateMs i
      refine ⟨by omega, ?_, ?_⟩
      · intro x hx
        rcases List.mem_cons.mp hx with rfl | hx
        · exact hr.1
        · exact hr.2.1 x hx
      · rcases hr.2.2 with ⟨h1, h2⟩ | ⟨j, hj, h2, h1⟩
        · exact Or.inr ⟨0, by simp, by omega, by simpa using h1⟩
        · exact Or.inr ⟨j + 1, by simpa using hj, by omega, by simpa using h1⟩
    case isFalse hc =>
      have hr := ih (i + 1) o k
      refine ⟨hr.1, ?_, ?_⟩
      · intro x hx
        rcases List.mem_cons.mp hx with rfl | hx
        · omega
        · exact hr.2.1 x hx
      · rcases hr.2.2 with ⟨h1, h2⟩ | ⟨j, hj, h2, h1⟩
        · exact Or.inl ⟨h1, h2⟩
        · exact Or.inr ⟨j + 1, by simpa using hj, by omega, by simpa using h1⟩

/-- `allocTrackSlot` always returns an in-range slot of a nonempty table. -/
theorem allocTrackSlot_lt (ts : List Track) (hlen : 0 < ts.length) :
    allocTrackSlot ts < ts.length := by
  unfold allocTrackSlot
  cases hf : findFreeSlot ts with
  | some i => exact (findFreeSlot_some ts i hf).1
  | none =>
    have hs := oldestScan_spec ts 0 (2 ^ 32 - 1) 0
    rcases hs.2.2 with ⟨_, h2⟩ | ⟨j, hj, h2, _⟩
    · rw [h2]
      exact hlen
    · rw [h2]
      simpa using hj

/-- On a full table whose timestamps respect the `uint32_t` range, the slot
`allocTrackSlot` picks carries a globally minimal `lastUpdateMs`. -/
theorem allocTrackSlot_min (ts : List Track)
    (hfull : ∀ t ∈ ts, t.used = true)
    (hbound : ∀ t ∈ ts, t.lastUpdateMs ≤ 2 ^ 32 - 1)
    (hlen : 0 < ts.length) :
    ∀ t ∈ ts, (ts.getD (allocTrackSlot ts) default).lastUpdateMs
      ≤ t.lastUpdateMs := by
  have halloc : allocTrackSlot ts = (oldestScan ts 0 (2 ^ 32 - 1) 0).2 := by
    unfold allocTrackSlot
    rw [findFreeSlot_none_of_all_used ts hfull]
  have hs := oldestScan_spec ts 0 (2 ^ 32 - 1) 0
  rcases hs.2.2 with ⟨h1, h2⟩ | ⟨j, hj, h2, h1⟩
  · rw [halloc, h2]
    intro t ht
    have h0mem : ts.getD 0 default ∈ ts := by
      rw [List.getD_eq_getElem _ _ hlen]
      exact List.getElem_mem hlen
    have hx := hs.2.1 (ts.getD 0 default) h0mem
    have hb0 := hbound (ts.getD 0 default) h0mem
    have hxt := hs.2.1 t ht
    omega
  · rw [halloc, h2]
    intro t ht
    have hxt := hs.2.1 t ht
    simp only [Nat.zero_add] at *
    omega

/-- The slot update marks the slot used. -/
theorem updateSlot_used (t : Track) (o : Obs) (now : Nat) :
    (updateSlot t o now).used = true := by
  simp only [updateSlot]

/-- The slot update stores the observation's identity key. -/
theorem updateSlot_hex (t : Track) (o : Obs) (now : Nat) :
    (updateSlot t o now).hex = hexKey o.hex := by
  simp only [updateSlot]

/-- The slot update stamps the current time. -/
theorem updateSlot_lastUpdateMs (t : Track) (o : Obs) (now : Nat) :
    (updateSlot t o now).lastUpdateMs = now := by
  simp only [updateSlot]

/-- `getD` after an in-place slot write. -/
theorem getD_set_track (l : List Track) (idx a : Nat) (v : Track)
    (ha : a < l.length) :
    (l.set idx v).getD a default = if idx = a then v else l.getD a default := by
  rw [List.getD_eq_getElem _ _ (by simpa using ha), List.getElem_set]
  split
  · rfl
  · rw [List.getD_eq_getElem _ _ ha]

/-- Upserting never changes the table's size. -/
theorem upsertTrack_length (ts : List Track) (o : Obs) (now : Nat) :
    (upsertTrack ts o now).length = ts.length := by
  simp [upsertTrack]

/-- One upsert preserves hex-distinctness of used slots: an existing identity
is updated in place and a new identity lands in a slot while no used slot
holds its key. -/
theorem upsert_preserves_hex_distinct (ts : List Track) (o : Obs) (now : Nat)
    (hP : ∀ i j, i < ts.length → j < ts.length → i ≠ j →
      (ts.getD i default).used = true → (ts.getD j default).used = true →
      (ts.getD i default).hex ≠ (ts.getD j default).hex) :
    ∀ i j, i < (upsertTrack ts o now).length →
      j < (upsertTrack ts o now).length → i ≠ j →
      ((upsertTrack ts o now).getD i default).used = true →
      ((upsertTrack ts o now).getD j default).used = true →
      ((upsertTrack ts o now).getD i default).hex
        ≠ ((upsertTrack ts o now).getD j default).hex := by
  intro a b ha hb hne hua hub
  rw [upsertTrack_length] at ha hb
  cases hfind : findTrackByHex ts o.hex with
  | some i =>
    have hF := findTrackByHex_some ts o.hex i hfind
    have hup : upsertTrack ts o now
        = ts.set i (updateSlot (ts.getD i default) o now) := by
      simp [upsertTrack, hfind]
    rw [hup] at hua hub ⊢
    rw [getD_set_track _ _ _ _ ha] at hua ⊢
    rw [getD_set_track _ _ _ _ hb] at hub ⊢
    by_cases hia : i = a
    · subst hia
      rw [if_pos rfl] at hua ⊢
      rw [if_neg hne] at hub ⊢
      rw [updateSlot_hex, ← hF.2.2]
      exact hP i b hF.1 hb hne hF.2.1 hub
    · rw [if_neg hia] at hua ⊢
      by_cases hib : i = b
      · subst hib
        rw [if_pos rfl] at hub ⊢
        rw [updateSlot_hex, ← hF.2.2]
        exact fun heq => (hP i a hF.1 ha (fun h => hne h.symm) hF.2.1 hua) heq.symm
      · rw [if_neg hib] at hub ⊢
        exact hP a b ha hb hne hua hub
  | none =>
    have hup : upsertTrack ts o now
        = ts.set (allocTrackSlot ts)
            (updateSlot (ts.getD (allocTrackSlot ts) default) o now) := by
      simp [upsertTrack, hfind]
    have hN := findTrackByHex_none ts o.hex hfind
    rw [hup] at hua hub ⊢
    rw [getD_set_track _ _ _ _ ha] at hua ⊢
    rw [getD_set_track _ _ _ _ hb] at hub ⊢
    by_cases hia : allocTrackSlot ts = a
    · rw [if_pos hia] at hua ⊢
      rw [if_neg (hia ▸ hne)] at hub ⊢
      rw [updateSlot_hex]
      exact fun heq => (hN b hb hub) heq.symm
    · rw [if_neg hia] at hua ⊢
      by_cases hib : allocTrackSlot ts = b
      · rw [if_pos hib] at hub ⊢
        rw [updateSlot_hex]
        exact fun heq => (hN a ha hua) heq
      · rw [if_neg hib] at hub ⊢
        exact hP a b ha hb hne hua hub

/-- Hex-distinctness of used slots is preserved across a whole sequence of
upserts. -/
theorem upsertAll_preserves_hex_distinct (obsList : List (Obs × Nat))
    (ts : List Track)
    (hP : ∀ i j, i < ts.length → j < ts.length → i ≠ j →
      (ts.getD i default).used = true → (ts.getD j default).used = true →
      (ts.getD i default).hex ≠ (ts.getD j default).hex) :
    ∀ i j, i < (upsertAll ts obsList).length →
      j < (upsertAll ts obsList).length → i ≠ j →
      ((upsertAll ts obsList).getD i default).used = true →
      ((upsertAll ts obsList).getD j default).used = true →
      ((upsertAll ts obsList).getD i default).hex
        ≠ ((upsertAll ts obsList).getD j default).hex := by
  induction obsList generalizing ts with
  | nil => exact hP
  | cons p rest ih =>
    exact ih (upsertTrack ts p.1 p.2)
      (upsert_preserves_hex_distinct ts p.1 p.2 hP)

/-- C8: after any sequence of upserts applied to an initially empty table,
the store holds at most one live (used) entry per identity: two distinct used
slots always store distinct hex keys. -/
theorem claim_C8_at_most_one_per_identity (n : Nat)
    (obsList : List (Obs × Nat)) :
    ∀ i j, i < (upsertAll (initialTracks n) obsList).length →
      j < (upsertAll (initialTracks n) obsList).length → i ≠ j →
      ((upsertAll (initialTracks n) obsList).getD i default).used = true →
      ((upsertAll (initialTracks n) obsList).getD j default).used = true →
      ((upsertAll (initialTracks n) obsList).getD i default).hex
        ≠ ((upsertAll (initialTracks n) obsList).getD j default).hex := by
  refine upsertAll_preserves_hex_distinct obsList (initialTracks n) ?_
  intro i j hi hj hne hui huj
  exfalso
  rw [initialTracks] at hui hi
  rw [List.getD_eq_getElem _ _ hi, List.getElem_replicate] at hui
  simp at hui

/-- C8 witness: two upserts of distinct identities into an empty two-slot
table leave slots 0 and 1 with distinct hex keys. -/
theorem claim_C8_witness :
    ((upsertAll (initialTracks 2)
        [({ hex := "aaaaaa", flight := "" }, 1),
         ({ hex := "bbbbbb", flight := "" }, 2)]).getD 0 default).hex
      ≠ ((upsertAll (initialTracks 2)
        [({ hex := "aaaaaa", flight := "" }, 1),
         ({ hex := "bbbbbb", flight := "" }, 2)]).getD 1 default).hex :=
  claim_C8_at_most_one_per_identity 2
    [({ hex := "aaaaaa", flight := "" }, 1),
     ({ hex := "bbbbbb", flight := "" }, 2)]
    0 1 (by decide) (by decide) (by decide) (by decide) (by decide)

/-- C6: upserting a new identity into a full table never fails: the chosen
slot is in range and carries a globally minimal `lastUpdateMs` among all
slots (least-recently-updated recycling), and after the upsert the table has
the same size and the recycled slot is used, stores the new identity, and is
stamped with the current time. -/
theorem claim_C6_full_table_recycles_lru (ts : List Track) (o : Obs)
    (now : Nat)
    (hfull : ∀ t ∈ ts, t.used = true)
    (hbound : ∀ t ∈ ts, t.lastUpdateMs ≤ 2 ^ 32 - 1)
    (hlen : 0 < ts.length)
    (habsent : findTrackByHex ts o.hex = none) :
    allocTrackSlot ts < ts.length ∧
    (∀ t ∈ ts, (ts.getD (allocTrackSlot ts) default).lastUpdateMs
      ≤ t.lastUpdateMs) ∧
    (upsertTrack ts o now).length = ts.length ∧
    ((upsertTrack ts o now).getD (allocTrackSlot ts) default).used = true ∧
    ((upsertTrack ts o now).getD (allocTrackSlot ts) default).hex
      = hexKey o.hex ∧
    ((upsertTrack ts o now).getD (allocTrackSlot ts) default).lastUpdateMs
      = now := by
  have hup : upsertTrack ts o now
      = ts.set (allocTrackSlot ts)
          (updateSlot (ts.getD (allocTrackSlot ts) default) o now) := by
    simp [upsertTrack, habsent]
  have hlt := allocTrackSlot_lt ts hlen
  refine ⟨hlt, allocTrackSlot_min ts hfull hbound hlen,
    upsertTrack_length ts o now, ?_, ?_, ?_⟩ <;>
  · rw [hup, getD_set_track _ _ _ _ hlt, if_pos rfl]
    simp [updateSlot_used, updateSlot_hex, updateSlot_lastUpdateMs]

/-- C6 witness: a full two-slot table (timestamps 500 and 300) recycles
slot 1 — the least-recently-updated one — for the new identity "cccccc",
and the upsert completes with that slot used, rekeyed and restamped. -/
theorem claim_C6_witness :
    allocTrackSlot
        [{ used := true, hex := "aaaaaa", lastUpdateMs := 500 },
         { used := true, hex := "bbbbbb", lastUpdateMs := 300 }] < 2 ∧
    (∀ t ∈ [{ used := true, hex := "aaaaaa", lastUpdateMs := 500 },
            ({ used := true, hex := "bbbbbb", lastUpdateMs := 300 } : Track)],
      (([{ used := true, hex := "aaaaaa", lastUpdateMs := 500 },
          ({ used := true, hex := "bbbbbb", lastUpdateMs := 300 } : Track)]).getD
          (allocTrackSlot
            [{ used := true, hex := "aaaaaa", lastUpdateMs := 500 },
             { used := true, hex := "bbbbbb", lastUpdateMs := 300 }])
          default).lastUpdateMs ≤ t.lastUpdateMs) ∧
    (upsertTrack
        [{ used := true, hex := "aaaaaa", lastUpdateMs := 500 },
         { used := true, hex := "bbbbbb", lastUpdateMs := 300 }]
        { hex := "cccccc", flight := "" } 1000).length = 2 ∧
    ((upsertTrack
        [{ used := true, hex := "aaaaaa", lastUpdateMs := 500 },
         { used := true, hex := "bbbbbb", lastUpdateMs := 300 }]
        { hex := "cccccc", flight := "" } 1000).getD
        (allocTrackSlot
          [{ used := true, hex := "aaaaaa", lastUpdateMs := 500 },
           { used := true, hex := "bbbbbb", lastUpdateMs := 300 }])
        default).used = true ∧
    ((upsertTrack
        [{ used := true, hex := "aaaaaa", lastUpdateMs := 500 },
         { used := true, hex := "bbbbbb", lastUpdateMs := 300 }]
        { hex := "cccccc", flight := "" } 1000).getD
        (allocTrackSlot
          [{ used := true, hex := "aaaaaa", lastUpdateMs := 500 },
           { used := true, hex := "bbbbbb", lastUpdateMs := 300 }])
        default).hex = hexKey "cccccc" ∧
    ((upsertTrack
        [{ used := true, hex := "aaaaaa", lastUpdateMs := 500 },
         { used := true, hex := "bbbbbb", lastUpdateMs := 300 }]
        { hex := "cccccc", flight := "" } 1000).getD
        (allocTrackSlot
          [{ used := true, hex := "aaaaaa", lastUpdateMs := 500 },
           { used := true, hex := "bbbbbb", lastUpdateMs := 300 }])
        default).lastUpdateMs = 1000 :=
  claim_C6_full_table_recycles_lru
    [{ used := true, hex := "aaaaaa", lastUpdateMs := 500 },
     { used := true, hex := "bbbbbb", lastUpdateMs := 300 }]
    { hex := "cccccc", flight := "" } 1000
    (by decide) (by decide) (by decide) (by decide)
